import Mathlib

/-!
Shallow embedding of the ucarion/jwt token codec and algorithm-bound
verification engine, together with proofs of the specified properties.

Bytes are modelled as `List Nat` (each element a byte value `< 256` where it
matters; hypotheses state the bound explicitly).  Go strings are byte strings,
so header fields and algorithm names are also `List Nat`, compared by list
equality exactly as Go compares strings.  The cryptographic primitives (HMAC,
SHA-256, RSA-PKCS1v15, ECDSA) are external collaborators of the core and are
taken as opaque function parameters, mirroring how the Go code receives them
through the `fn` callbacks of `sign` and `verify`.
-/

deriving instance DecidableEq for Except

namespace UcarionJwt

/-- Byte strings, the `[]byte` of the Go source. -/
abbrev Bytes := List Nat

/-- The error values that can flow out of the engine.  `invalidSignature` is
`jwt.ErrInvalidSignature`; `notEnoughParts` is `parts.ErrNotEnoughParts` of the
older segment codec; `wrongAlgorithm` is `jwt.ErrWrongAlgorithm` of the older
packages; `expiredToken` is `jwt.ErrExpiredToken`; `corruptInput` stands for
`base64.CorruptInputError` (the offset it carries is not modelled);
`jsonError` stands for any `encoding/json` unmarshal error; `signFailure` is a
failure of the underlying signing primitive; `sigTooLong` models the Go
runtime panic that `sign` would hit if the callback returned a signature
longer than the declared `sigLen`. -/
inductive Err where
  | invalidSignature
  | notEnoughParts
  | wrongAlgorithm
  | expiredToken
  | corruptInput
  | jsonError
  | signFailure
  | sigTooLong
deriving DecidableEq, Repr

/-- Observable steps of the engine, recorded in order by the instrumented
embeddings of `sign` and `verify` so that ordering claims (what was decoded,
what the callbacks received) can be stated.  `callVerifyFn` and `callSignFn`
record the exact byte ranges handed to the cryptographic callbacks. -/
inductive Ev where
  | decodeHeader
  | unmarshalHeader
  | decodeSignature
  | callVerifyFn (data sig : Bytes)
  | decodeClaims
  | callSignFn (data : Bytes)
deriving DecidableEq, Repr

/-! ### Base64url (Go `encoding/base64`, `RawURLEncoding`) -/

/-- The base64url alphabet `A-Z a-z 0-9 - _` as byte values. -/
def b64Table : Bytes :=
  [65, 66, 67, 68, 69, 70, 71, 72, 73, 74, 75, 76, 77, 78, 79, 80, 81, 82,
   83, 84, 85, 86, 87, 88, 89, 90,
   97, 98, 99, 100, 101, 102, 103, 104, 105, 106, 107, 108, 109, 110, 111,
   112, 113, 114, 115, 116, 117, 118, 119, 120, 121, 122,
   48, 49, 50, 51, 52, 53, 54, 55, 56, 57, 45, 95]

/-- Character for a six-bit group. -/
def sextetChar (k : Nat) : Nat := b64Table.getD k 0

/-- Decode one alphabet character back to its six-bit value; `none` for a
character outside the alphabet (Go's `decodeMap` 0xff entries). -/
def charSextet (c : Nat) : Option Nat := b64Table.findIdx? (· == c)

/-- Raw (unpadded) base64url encoding: three bytes to four characters, with
the final one- or two-byte remainder encoded into two or three characters. -/
def b64urlEncode : Bytes → Bytes
  | [] => []
  | [b0] => [sextetChar (b0 / 4), sextetChar (b0 % 4 * 16)]
  | [b0, b1] =>
      [sextetChar (b0 / 4), sextetChar (b0 % 4 * 16 + b1 / 16),
       sextetChar (b1 % 16 * 4)]
  | b0 :: b1 :: b2 :: rest =>
      sextetChar (b0 / 4) :: sextetChar (b0 % 4 * 16 + b1 / 16) ::
      sextetChar (b1 % 16 * 4 + b2 / 64) :: sextetChar (b2 % 64) ::
      b64urlEncode rest

/-- Decode a newline-free character sequence: four characters to three bytes,
a final remainder of two or three characters to one or two bytes, and a
remainder of one character is corrupt input.  Leftover bits of a partial final
group are discarded, as in Go's non-strict decoder. -/
def b64DecodeQuads : Bytes → Except Err Bytes
  | [] => .ok []
  | [_] => .error .corruptInput
  | [c0, c1] =>
      match charSextet c0, charSextet c1 with
      | some s0, some s1 => .ok [s0 * 4 + s1 / 16]
      | _, _ => .error .corruptInput
  | [c0, c1, c2] =>
      match charSextet c0, charSextet c1, charSextet c2 with
      | some s0, some s1, some s2 =>
          .ok [s0 * 4 + s1 / 16, s1 % 16 * 16 + s2 / 4]
      | _, _, _ => .error .corruptInput
  | c0 :: c1 :: c2 :: c3 :: rest =>
      match charSextet c0, charSextet c1, charSextet c2, charSextet c3,
            b64DecodeQuads rest with
      | some s0, some s1, some s2, some s3, .ok bs =>
          .ok ((s0 * 4 + s1 / 16) :: (s1 % 16 * 16 + s2 / 4) ::
               (s2 % 4 * 64 + s3) :: bs)
      | _, _, _, _, _ => .error .corruptInput

/-- Go's base64 decoder skips carriage returns and newlines wherever they
occur in the input. -/
def stripCRLF (s : Bytes) : Bytes := s.filter (fun c => !(c == 13 || c == 10))

/-- `base64.RawURLEncoding` decoding of a byte string. -/
def b64urlDecode (s : Bytes) : Except Err Bytes := b64DecodeQuads (stripCRLF s)

/-- `RawURLEncoding.EncodedLen`. -/
def b64EncodedLen (n : Nat) : Nat := (n * 8 + 5) / 6

/-- `RawURLEncoding.DecodedLen`. -/
def b64DecodedLen (n : Nat) : Nat := n * 6 / 8

/-- The Go pattern `dst := make([]byte, dstLen); Encoding.Decode(dst, src)`:
on success the destination buffer keeps its full length `dstLen`, with zero
bytes beyond what the decoder wrote (the decoder writes fewer than `dstLen`
bytes when `src` contained skipped newline characters). -/
def goDecode (dstLen : Nat) (src : Bytes) : Except Err Bytes :=
  match b64urlDecode src with
  | .error e => .error e
  | .ok bs => .ok (bs ++ List.replicate (dstLen - bs.length) 0)

/-! ### The JWT header and its JSON codec (Go `encoding/json` on the
fixed two-field `header` struct) -/

/-- Bytes of an ASCII string literal (every string this development feeds in
is ASCII, where UTF-8 bytes coincide with character codes). -/
def asciiBytes (s : String) : Bytes := s.data.map Char.toNat

/-- The `header` struct of the source: `typ` and `alg` JSON fields.  Go
strings are byte strings, so both fields are `Bytes`; Go's `==` on strings is
byte-string equality. -/
structure Header where
  typ : Bytes
  algorithm : Bytes
deriving DecidableEq, Repr

/-- `jwt.headerTypeJWT`. -/
def headerTypeJWT : Bytes := asciiBytes "JWT"

/-- Lowercase hex digit, as Go's json encoder emits in `\u00xx` escapes. -/
def hexDigit (n : Nat) : Nat := if n < 10 then 48 + n else 87 + n

/-- Escaping of one byte inside a JSON string, following Go's json encoder:
quote and backslash get a backslash escape, newline / carriage return / tab
get their short escapes, other control bytes and the HTML-escaped characters
`< > &` become `\u00xx`.  (Go's ` `/` ` escaping concerns multi-byte
sequences and is not modelled; no header emitted by the engine contains
them.) -/
def jsonEscapeByte (c : Nat) : Bytes :=
  if c = 34 then [92, 34]
  else if c = 92 then [92, 92]
  else if c = 10 then [92, 110]
  else if c = 13 then [92, 114]
  else if c = 9 then [92, 116]
  else if c < 32 || c = 60 || c = 62 || c = 38 then
    [92, 117, 48, 48, hexDigit (c / 16), hexDigit (c % 16)]
  else [c]

/-- A JSON string literal for a byte string. -/
def jsonString (s : Bytes) : Bytes :=
  34 :: s.foldr (fun c acc => jsonEscapeByte c ++ acc) [34]

/-- `json.Marshal(header{Type: ..., Algorithm: ...})`: Go emits the struct
fields in declaration order, producing exactly
`{"typ":<typ>,"alg":<alg>}`.  Marshalling the fixed header never fails. -/
def marshalHeader (h : Header) : Bytes :=
  [123] ++ jsonString (asciiBytes "typ") ++ [58] ++ jsonString h.typ ++ [44] ++
  jsonString (asciiBytes "alg") ++ [58] ++ jsonString h.algorithm ++ [125]

/-- JSON whitespace. -/
def isJsonWs (c : Nat) : Bool := c == 32 || c == 9 || c == 10 || c == 13

/-- Parse the body of a JSON string after the opening quote, returning the
unescaped content and the rest of the input.  The short escapes are decoded;
`\uXXXX` escapes and multi-byte UTF-8 are not modelled (no header this
development reasons about contains them); unescaped control bytes are
invalid. -/
def parseStringBody : Nat → Bytes → Option (Bytes × Bytes)
  | 0, _ => none
  | _, [] => none
  | fuel + 1, c :: rest =>
    if c = 34 then some ([], rest)
    else if c = 92 then
      match rest with
      | [] => none
      | e :: rest2 =>
        let b? : Option Nat :=
          if e = 34 then some 34 else if e = 92 then some 92
          else if e = 47 then some 47 else if e = 110 then some 10
          else if e = 116 then some 9 else if e = 114 then some 13
          else if e = 98 then some 8 else if e = 102 then some 12 else none
        match b? with
        | some b => (parseStringBody fuel rest2).map (fun p => (b :: p.1, p.2))
        | none => none
    else if c < 32 then none
    else (parseStringBody fuel rest).map (fun p => (c :: p.1, p.2))

/-- Is this byte part of a JSON number token? -/
def isNumByte (c : Nat) : Bool :=
  (48 ≤ c && c ≤ 57) || c == 45 || c == 43 || c == 46 || c == 101 || c == 69

/-- Drop leading JSON whitespace. -/
def skipJsonWs (s : Bytes) : Bytes := s.dropWhile isJsonWs

mutual

/-- Skip one JSON value, returning its string content when it is a string
(struct fields of string type need the value; values of unknown keys are
skipped whatever their shape).  Numbers are lexed as a maximal token of
number bytes; `true`/`false`/`null` literals, nested objects and arrays are
consumed recursively. -/
def parseValue : Nat → Bytes → Option (Option Bytes × Bytes)
  | 0, _ => none
  | _, [] => none
  | fuel + 1, c :: rest =>
    if c = 34 then
      (parseStringBody fuel rest).map (fun p => (some p.1, p.2))
    else if c = 123 then
      (parseObjectRest fuel (skipJsonWs rest)).map (fun r => (none, r))
    else if c = 91 then
      (parseArrayRest fuel (skipJsonWs rest)).map (fun r => (none, r))
    else if c = 116 then
      match rest with
      | 114 :: 117 :: 101 :: r => some (none, r)
      | _ => none
    else if c = 102 then
      match rest with
      | 97 :: 108 :: 115 :: 101 :: r => some (none, r)
      | _ => none
    else if c = 110 then
      match rest with
      | 117 :: 108 :: 108 :: r => some (none, r)
      | _ => none
    else if isNumByte c then
      some (none, rest.dropWhile isNumByte)
    else none

/-- Consume the members of an object after its `{` (and leading whitespace),
up to and including the closing `}`. -/
def parseObjectRest : Nat → Bytes → Option Bytes
  | 0, _ => none
  | _, [] => none
  | fuel + 1, c :: rest =>
    if c = 125 then some rest
    else if c = 34 then
      match parseStringBody fuel rest with
      | none => none
      | some (_, afterKey) =>
        match skipJsonWs afterKey with
        | 58 :: afterColon =>
          match parseValue fuel (skipJsonWs afterColon) with
          | none => none
          | some (_, afterVal) =>
            match skipJsonWs afterVal with
            | 44 :: afterComma => parseObjectRest fuel (skipJsonWs afterComma)
            | 125 :: r => some r
            | _ => none
        | _ => none
    else none

/-- Consume the elements of an array after its `[` (and leading whitespace),
up to and including the closing `]`. -/
def parseArrayRest : Nat → Bytes → Option Bytes
  | 0, _ => none
  | _, [] => none
  | fuel + 1, c :: rest =>
    if c = 93 then some rest
    else
      match parseValue fuel (c :: rest) with
      | none => none
      | some (_, afterVal) =>
        match skipJsonWs afterVal with
        | 44 :: afterComma => parseArrayRest fuel (skipJsonWs afterComma)
        | 93 :: r => some r
        | _ => none

end

/-- Consume the members of the top-level header object (after its `{` and
leading whitespace), folding `"typ"` and `"alg"` string values into the
header under construction.  A `"typ"` or `"alg"` member whose value is not a
JSON string is an unmarshal type error, as in Go; members with other keys are
skipped; with a duplicated key the last member wins, as in Go.  (Go also
matches struct fields case-insensitively as a fallback; only exact key
matches are modelled.) -/
def parseHeaderMembers : Nat → Bytes → Header → Option (Header × Bytes)
  | 0, _, _ => none
  | _, [], _ => none
  | fuel + 1, c :: rest, h =>
    if c = 125 then some (h, rest)
    else if c = 34 then
      match parseStringBody fuel rest with
      | none => none
      | some (key, afterKey) =>
        match skipJsonWs afterKey with
        | 58 :: afterColon =>
          match parseValue fuel (skipJsonWs afterColon) with
          | none => none
          | some (val?, afterVal) =>
            match
              (if key = asciiBytes "typ" then
                 (val?.map (fun v => { h with typ := v }))
               else if key = asciiBytes "alg" then
                 (val?.map (fun v => { h with algorithm := v }))
               else some h) with
            | none => none
            | some h' =>
              match skipJsonWs afterVal with
              | 44 :: afterComma =>
                  parseHeaderMembers fuel (skipJsonWs afterComma) h'
              | 125 :: r => some (h', r)
              | _ => none
        | _ => none
    else none

/-- `json.Unmarshal(decodedHeader, &header)` for the two-field header struct:
the payload must be a single JSON object (fields other than `typ`/`alg`
ignored, missing fields left at the zero value `[]`) followed by nothing but
whitespace — in particular the zero bytes that `verify`'s oversized decode
buffer can leave behind make the unmarshal fail, as they do in Go. -/
def unmarshalHeader (b : Bytes) : Except Err Header :=
  match skipJsonWs b with
  | 123 :: rest =>
    match parseHeaderMembers (b.length + 1) (skipJsonWs rest) ⟨[], []⟩ with
    | none => .error .jsonError
    | some (h, trailing) =>
      if skipJsonWs trailing = [] then .ok h else .error .jsonError
  | _ => .error .jsonError

/-! ### The token engine: `sign` and `verify` -/

/-- `bytes.IndexByte`: index of the first occurrence, `none` for Go's `-1`. -/
def indexByte (s : Bytes) (b : Nat) : Option Nat := s.findIdx? (· == b)

/-- The result of `verify` together with the ordered record of the
observable steps it performed. -/
abbrev VerifyResult := Except Err Bytes × List Ev

/-- The `verify` function of the source (`verify(alg string, s []byte, fn
func(data, sig []byte) error) ([]byte, error)`), instrumented with the event
record: find the two `.` delimiters (returning `ErrInvalidSignature` when one
is missing), base64url-decode the header segment into a buffer of
`DecodedLen` bytes, JSON-unmarshal it, require the header's `alg` to equal
the caller's fixed `alg` (mismatch is `ErrInvalidSignature`), base64url-decode
the signature segment, hand `s[:i+1+j]` and the decoded signature to `fn`,
and only if `fn` succeeds base64url-decode and return the claims segment. -/
def verify (alg : Bytes) (s : Bytes)
    (fn : Bytes → Bytes → Except Err Unit) : VerifyResult :=
  match indexByte s 46 with
  | none => (.error .invalidSignature, [])
  | some i =>
    match indexByte (s.drop (i + 1)) 46 with
    | none => (.error .invalidSignature, [])
    | some j =>
      match goDecode (b64DecodedLen i) (s.take i) with
      | .error e => (.error e, [.decodeHeader])
      | .ok decodedHeader =>
        match unmarshalHeader decodedHeader with
        | .error e => (.error e, [.decodeHeader, .unmarshalHeader])
        | .ok header =>
          if header.algorithm ≠ alg then
            (.error .invalidSignature, [.decodeHeader, .unmarshalHeader])
          else
            match goDecode (b64DecodedLen (s.length - i - 1 - j - 1))
                (s.drop (i + 1 + j + 1)) with
            | .error e =>
                (.error e, [.decodeHeader, .unmarshalHeader, .decodeSignature])
            | .ok decodedSignature =>
              match fn (s.take (i + 1 + j)) decodedSignature with
              | .error e =>
                  (.error e,
                   [.decodeHeader, .unmarshalHeader, .decodeSignature,
                    .callVerifyFn (s.take (i + 1 + j)) decodedSignature])
              | .ok _ =>
                match goDecode (b64DecodedLen j) ((s.drop (i + 1)).take j) with
                | .error e =>
                    (.error e,
                     [.decodeHeader, .unmarshalHeader, .decodeSignature,
                      .callVerifyFn (s.take (i + 1 + j)) decodedSignature,
                      .decodeClaims])
                | .ok decodedClaims =>
                    (.ok decodedClaims,
                     [.decodeHeader, .unmarshalHeader, .decodeSignature,
                      .callVerifyFn (s.take (i + 1 + j)) decodedSignature,
                      .decodeClaims])

/-- The `sign` function of the source (`sign(alg string, sigLen int, v
interface{}, fn func(data []byte) ([]byte, error)) ([]byte, error)`),
instrumented with the event record.  The claims value is received already
JSON-marshalled (`claimsJson` plays the role of `json.Marshal(v)`, which is
the caller's external JSON layer).  The output buffer is laid out as in Go:
encoded header, `.`, encoded claims, `.`, and the base64url-encoded signature
in a slot of `EncodedLen(sigLen)` bytes that keeps its zero bytes if the
callback returned fewer than `sigLen` bytes; a longer signature would
overflow the buffer, which in Go is a runtime panic, modelled as the
`sigTooLong` error. -/
def sign (alg : Bytes) (sigLen : Nat) (claimsJson : Bytes)
    (fn : Bytes → Except Err Bytes) : Except Err Bytes × List Ev :=
  let header := marshalHeader ⟨headerTypeJWT, alg⟩
  let data := b64urlEncode header ++ [46] ++ b64urlEncode claimsJson
  match fn data with
  | .error e => (.error e, [.callSignFn data])
  | .ok sig =>
    if b64EncodedLen sig.length ≤ b64EncodedLen sigLen then
      (.ok (data ++ [46] ++ b64urlEncode sig ++
            List.replicate (b64EncodedLen sigLen - b64EncodedLen sig.length) 0),
       [.callSignFn data])
    else (.error .sigTooLong, [.callSignFn data])

/-! ### Algorithm bindings

The underlying primitives (HMAC-SHA256, SHA-256, `rsa.VerifyPKCS1v15`,
`ecdsa.Verify`, `ecdsa.Sign`, `rsa.SignPKCS1v15`) are external collaborators;
the bindings receive them as opaque functions, closed over the key material
exactly as the Go closures are.  Each `...Check` function is the body of the
`fn` callback the binding hands to `verify`; alongside the callback's result
it reports whether the underlying cryptographic comparison primitive was
invoked. -/

/-- Algorithm name constants. -/
def algHS256 : Bytes := asciiBytes "HS256"

/-- Algorithm name constant for RS256. -/
def algRS256 : Bytes := asciiBytes "RS256"

/-- Algorithm name constant for ES256. -/
def algES256 : Bytes := asciiBytes "ES256"

/-- The HS256 verify callback: recompute the HMAC over `data` and compare it
against `sig` with `hmac.Equal` (plain byte-string equality, invoked
unconditionally — there is no length pre-check). -/
def hs256Check (hmac : Bytes → Bytes → Bytes) (secret : Bytes)
    (data sig : Bytes) : Except Err Unit × Bool :=
  let mac := hmac secret data
  ((if mac = sig then .ok () else .error .invalidSignature), true)

/-- The RS256 verify callback: hash `data` and hand digest and signature to
`rsa.VerifyPKCS1v15` (invoked unconditionally; any failure, including a
wrong-length signature, surfaces from inside the primitive as a `false`
answer and becomes `ErrInvalidSignature`). -/
def rs256Check (rsaVerifyPKCS1v15 : Bytes → Bytes → Bool)
    (hash : Bytes → Bytes) (data sig : Bytes) : Except Err Unit × Bool :=
  ((if rsaVerifyPKCS1v15 (hash data) sig then .ok ()
    else .error .invalidSignature), true)

/-- `big.Int.Bytes()`: minimal big-endian byte representation (empty for
zero). -/
def bigIntBytes (n : Nat) : Bytes :=
  if n = 0 then [] else bigIntBytes (n / 256) ++ [n % 256]
decreasing_by exact Nat.div_lt_self (Nat.pos_of_ne_zero (by assumption)) (by omega)

/-- `big.Int.SetBytes`: interpret a byte string as a big-endian integer. -/
def setBytes (bs : Bytes) : Nat := bs.foldl (fun acc b => acc * 256 + b) 0

/-- The ES256 signature encoding of the `Encode`/`SignES256` path: a 64-byte
buffer holding the big-endian bytes of `r` copied to end at offset 32 and the
big-endian bytes of `s` copied to end at offset 64, i.e. each scalar
left-zero-padded to 32 bytes.  (If a scalar exceeded 32 bytes the Go `copy`
target index `32-len(r)` would be negative, a runtime panic; P-256 scalars
are below `2^256`.) -/
def es256SigEncode (r s : Nat) : Bytes :=
  let rB := bigIntBytes r
  let sB := bigIntBytes s
  (List.replicate (32 - rB.length) 0 ++ rB) ++
  (List.replicate (32 - sB.length) 0 ++ sB)

/-- The ES256 verify callback: reject a signature that is not exactly 64
bytes before touching the primitive, otherwise split it into the two 32-byte
big-endian scalars and hand them with the digest to `ecdsa.Verify`. -/
def es256Check (ecdsaVerify : Bytes → Nat → Nat → Bool)
    (hash : Bytes → Bytes) (data sig : Bytes) : Except Err Unit × Bool :=
  if sig.length ≠ 64 then (.error .invalidSignature, false)
  else
    let sigR := setBytes (sig.take 32)
    let sigS := setBytes (sig.drop 32)
    ((if ecdsaVerify (hash data) sigR sigS then .ok ()
      else .error .invalidSignature), true)

/-! ### Top-level operations

`json.Unmarshal(claims, v)` deserializes into the caller's target value; it
is the external JSON layer, modelled as a function from the claims bytes and
the previous target value to a result and the new target value (Go may leave
the target partially written when unmarshalling fails, so the error case also
carries a value). -/

/-- A claims deserializer: the external `json.Unmarshal` into a target of
type `α`. -/
abbrev Unmarshaller (α : Type) := Bytes → α → Except Err Unit × α

/-- Shared tail of the three Verify functions: run `verify`, and only on
success unmarshal the returned claims into the target.  On any `verify`
failure the error is returned and the target is untouched. -/
def verifyInto {α : Type} (unm : Unmarshaller α) (v : α)
    (r : VerifyResult) : (Except Err Unit × α) × List Ev :=
  match r with
  | (.error e, evs) => ((.error e, v), evs)
  | (.ok claims, evs) => (unm claims v, evs)

/-- `VerifyHS256(secret, s []byte, v interface{}) error`. -/
def VerifyHS256 {α : Type} (hmac : Bytes → Bytes → Bytes)
    (unm : Unmarshaller α) (secret s : Bytes) (v : α) :
    (Except Err Unit × α) × List Ev :=
  verifyInto unm v
    (verify algHS256 s (fun data sig => (hs256Check hmac secret data sig).1))

/-- `VerifyRS256(pub, s, v)`; `rsaVerifyPKCS1v15` is closed over the public
key. -/
def VerifyRS256 {α : Type} (rsaVerifyPKCS1v15 : Bytes → Bytes → Bool)
    (hash : Bytes → Bytes) (unm : Unmarshaller α) (s : Bytes) (v : α) :
    (Except Err Unit × α) × List Ev :=
  verifyInto unm v
    (verify algRS256 s
      (fun data sig => (rs256Check rsaVerifyPKCS1v15 hash data sig).1))

/-- `VerifyES256(pub, s, v)`; `ecdsaVerify` is closed over the public key. -/
def VerifyES256 {α : Type} (ecdsaVerify : Bytes → Nat → Nat → Bool)
    (hash : Bytes → Bytes) (unm : Unmarshaller α) (s : Bytes) (v : α) :
    (Except Err Unit × α) × List Ev :=
  verifyInto unm v
    (verify algES256 s
      (fun data sig => (es256Check ecdsaVerify hash data sig).1))

/-- `SignHS256(secret, v)`: `sign` with the HMAC callback; `sha256.Size` is
32. -/
def SignHS256 (hmac : Bytes → Bytes → Bytes) (secret claimsJson : Bytes) :
    Except Err Bytes × List Ev :=
  sign algHS256 32 claimsJson (fun data => .ok (hmac secret data))

/-- `SignRS256(priv, v)`: `sign` with the RSA callback over the SHA-256
digest; the signature length is the key's modulus size (256 for the 2048-bit
keys of the reference design). -/
def SignRS256 (rsaSignPKCS1v15 : Bytes → Except Err Bytes)
    (hash : Bytes → Bytes) (claimsJson : Bytes) : Except Err Bytes × List Ev :=
  sign algRS256 256 claimsJson (fun data => rsaSignPKCS1v15 (hash data))

/-- `SignES256(priv, v)`: `sign` with the ECDSA callback; `ecdsaSign`
produces the two scalars (randomized in Go; modelled as whatever pair the
primitive returned for this invocation), which are encoded fixed-width into
64 bytes. -/
def SignES256 (ecdsaSign : Bytes → Except Err (Nat × Nat))
    (hash : Bytes → Bytes) (claimsJson : Bytes) : Except Err Bytes × List Ev :=
  sign algES256 64 claimsJson (fun data =>
    match ecdsaSign (hash data) with
    | .error e => .error e
    | .ok (r, s) => .ok (es256SigEncode r s))

/-! ### The older segment codec `internal/parts` -/

/-- `bytes.SplitN(s, ".", 3)`. -/
def bytesSplitN3 (s : Bytes) : List Bytes :=
  match indexByte s 46 with
  | none => [s]
  | some i =>
    match indexByte (s.drop (i + 1)) 46 with
    | none => [s.take i, s.drop (i + 1)]
    | some j =>
        [s.take i, (s.drop (i + 1)).take j, s.drop (i + 1 + j + 1)]

/-- `parts.Parse`: split on the first two `.` delimiters; fewer than three
parts is the distinct error `ErrNotEnoughParts`. -/
def partsParse (s : Bytes) : Except Err (Bytes × Bytes × Bytes) :=
  match bytesSplitN3 s with
  | [a, b, c] => .ok (a, b, c)
  | _ => .error .notEnoughParts

/-! ### Standard claims and the time validators -/

/-- A `time.Time` instant: wall-clock seconds and nanoseconds within the
second.  `time.Unix(sec, 0)` is `⟨sec, 0⟩`. -/
structure GoTime where
  sec : Int
  nsec : Nat
deriving DecidableEq, Repr

/-- `time.Time.After`: strictly later instant. -/
def GoTime.after (t u : GoTime) : Bool :=
  t.sec > u.sec || (t.sec == u.sec && t.nsec > u.nsec)

/-- `time.Time.Before`: strictly earlier instant. -/
def GoTime.before (t u : GoTime) : Bool :=
  t.sec < u.sec || (t.sec == u.sec && t.nsec < u.nsec)

/-- At-or-before ordering on instants (not a Go method; used to phrase the
boundary claims). -/
def GoTime.le (t u : GoTime) : Bool :=
  t.sec < u.sec || (t.sec == u.sec && t.nsec ≤ u.nsec)

/-- At-or-after ordering on instants (not a Go method; used to phrase the
boundary claims). -/
def GoTime.ge (t u : GoTime) : Bool :=
  t.sec > u.sec || (t.sec == u.sec && t.nsec ≥ u.nsec)

/-- `time.Unix(sec, 0)`. -/
def timeUnix (sec : Int) : GoTime := ⟨sec, 0⟩

/-- `jwt.StandardClaims` (current version: `int64` time claims). -/
structure StandardClaims where
  issuer : Bytes := []
  subject : Bytes := []
  audience : Bytes := []
  expirationTime : Int := 0
  notBefore : Int := 0
  issuedAt : Int := 0
  id : Bytes := []
deriving DecidableEq, Repr

/-- `StandardClaims.VerifyExpirationTime(now)`: `ErrExpiredToken` when `now`
is strictly after `time.Unix(ExpirationTime, 0)`. -/
def VerifyExpirationTime (c : StandardClaims) (now : GoTime) :
    Except Err Unit :=
  if GoTime.after now (timeUnix c.expirationTime) then .error .expiredToken
  else .ok ()

/-- `StandardClaims.VerifyNotBefore(now)`: `ErrExpiredToken` when `now` is
strictly before `time.Unix(NotBefore, 0)`. -/
def VerifyNotBefore (c : StandardClaims) (now : GoTime) : Except Err Unit :=
  if GoTime.before now (timeUnix c.notBefore) then .error .expiredToken
  else .ok ()

/-! ### Lemmas about the base64url codec -/

/-- Every alphabet character decodes back to its index. -/
lemma charSextet_sextetChar : ∀ k, k < 64 → charSextet (sextetChar k) = some k := by
  decide

/-- No alphabet character is `.`, CR, or LF — whatever the index, since the
out-of-range default is the zero byte. -/
lemma sextetChar_ne : ∀ k, sextetChar k ≠ 46 ∧ sextetChar k ≠ 13 ∧ sextetChar k ≠ 10 := by
  intro k
  by_cases h : k < 64
  · revert h
    revert k
    decide
  · have : sextetChar k = 0 := by
      unfold sextetChar
      apply List.getD_eq_default
      simpa [b64Table] using Nat.le_of_not_lt h
    simp [this]

/-- Every byte of an encoded string is an alphabet character. -/
lemma b64urlEncode_mem (xs : Bytes) :
    ∀ c ∈ b64urlEncode xs, ∃ k, c = sextetChar k := by
  induction xs using b64urlEncode.induct with
  | case1 => simp [b64urlEncode]
  | case2 b0 =>
      intro c hc
      simp only [b64urlEncode, List.mem_cons, List.mem_singleton] at hc
      rcases hc with h | h | h <;> first | exact ⟨_, h⟩ | simp at h
  | case3 b0 b1 =>
      intro c hc
      simp only [b64urlEncode, List.mem_cons, List.mem_singleton] at hc
      rcases hc with h | h | h | h <;> first | exact ⟨_, h⟩ | simp at h
  | case4 b0 b1 b2 rest ih =>
      intro c hc
      simp only [b64urlEncode, List.mem_cons] at hc
      rcases hc with h | h | h | h | h <;> first | exact ⟨_, h⟩ | exact ih c h

/-- Encoded strings contain no `.` byte. -/
lemma b64urlEncode_ne_dot (xs : Bytes) : ∀ c ∈ b64urlEncode xs, c ≠ 46 := by
  intro c hc
  obtain ⟨k, rfl⟩ := b64urlEncode_mem xs c hc
  exact (sextetChar_ne k).1

/-- Go's newline stripping is the identity on encoded strings. -/
lemma stripCRLF_b64urlEncode (xs : Bytes) :
    stripCRLF (b64urlEncode xs) = b64urlEncode xs := by
  unfold stripCRLF
  apply List.filter_eq_self.mpr
  intro c hc
  obtain ⟨k, rfl⟩ := b64urlEncode_mem xs c hc
  have h := sextetChar_ne k
  simp only [Bool.not_eq_true']
  simp [h.2.1, h.2.2]

/-- Decoding inverts encoding on genuine byte strings. -/
lemma b64DecodeQuads_b64urlEncode (xs : Bytes) (h : ∀ b ∈ xs, b < 256) :
    b64DecodeQuads (b64urlEncode xs) = .ok xs := by
  induction xs using b64urlEncode.induct with
  | case1 => rfl
  | case2 b0 =>
      have hb0 : b0 < 256 := h b0 (by simp)
      rw [b64urlEncode, b64DecodeQuads,
        charSextet_sextetChar _ (by omega),
        charSextet_sextetChar _ (by omega)]
      simp only [Except.ok.injEq, List.cons.injEq, eq_self_iff_true, and_true]
      omega
  | case3 b0 b1 =>
      have hb0 : b0 < 256 := h b0 (by simp)
      have hb1 : b1 < 256 := h b1 (by simp)
      rw [b64urlEncode, b64DecodeQuads,
        charSextet_sextetChar _ (by omega),
        charSextet_sextetChar _ (by omega),
        charSextet_sextetChar _ (by omega)]
      simp only [Except.ok.injEq, List.cons.injEq, eq_self_iff_true, and_true]
      omega
  | case4 b0 b1 b2 rest ih =>
      have hb0 : b0 < 256 := h b0 (by simp)
      have hb1 : b1 < 256 := h b1 (by simp)
      have hb2 : b2 < 256 := h b2 (by simp)
      have hrest : ∀ b ∈ rest, b < 256 := fun b hb => h b (by simp [hb])
      rw [b64urlEncode, b64DecodeQuads,
        charSextet_sextetChar _ (by omega),
        charSextet_sextetChar _ (by omega),
        charSextet_sextetChar _ (by omega),
        charSextet_sextetChar _ (by omega),
        ih hrest]
      simp only [Except.ok.injEq, List.cons.injEq, eq_self_iff_true, and_true]
      omega

/-- Full decode inverts encode. -/
lemma b64urlDecode_b64urlEncode (xs : Bytes) (h : ∀ b ∈ xs, b < 256) :
    b64urlDecode (b64urlEncode xs) = .ok xs := by
  rw [b64urlDecode, stripCRLF_b64urlEncode, b64DecodeQuads_b64urlEncode xs h]

/-- The encoded length matches `RawURLEncoding.EncodedLen`. -/
lemma length_b64urlEncode (xs : Bytes) :
    (b64urlEncode xs).length = b64EncodedLen xs.length := by
  induction xs using b64urlEncode.induct with
  | case1 => rfl
  | case2 b0 => simp [b64urlEncode, b64EncodedLen]
  | case3 b0 b1 => simp [b64urlEncode, b64EncodedLen]
  | case4 b0 b1 b2 rest ih =>
      simp only [b64urlEncode, List.length_cons, ih, b64EncodedLen,
        List.length_cons]
      omega

/-- `DecodedLen` inverts `EncodedLen`. -/
lemma b64DecodedLen_b64EncodedLen (n : Nat) :
    b64DecodedLen (b64EncodedLen n) = n := by
  simp only [b64DecodedLen, b64EncodedLen]
  omega

/-- The make-decode pattern at the exact `DecodedLen` of an encoded string
recovers the original bytes with no padding. -/
lemma goDecode_b64urlEncode (xs : Bytes) (h : ∀ b ∈ xs, b < 256) :
    goDecode (b64DecodedLen (b64urlEncode xs).length) (b64urlEncode xs)
      = .ok xs := by
  rw [goDecode, b64urlDecode_b64urlEncode xs h, length_b64urlEncode,
    b64DecodedLen_b64EncodedLen]
  simp

/-! ### Locating the delimiters of a well-formed token -/

/-- `IndexByte` on a string without the byte. -/
lemma indexByte_eq_none (s : Bytes) (h : ∀ c ∈ s, c ≠ 46) :
    indexByte s 46 = none := by
  rw [indexByte, List.findIdx?_eq_none_iff]
  intro c hc
  simpa using h c hc

/-- `IndexByte` finds the delimiter right after a delimiter-free prefix. -/
lemma indexByte_append_dot (a b : Bytes) (h : ∀ c ∈ a, c ≠ 46) :
    indexByte (a ++ 46 :: b) 46 = some a.length := by
  have hn := indexByte_eq_none a h
  rw [indexByte] at hn
  rw [indexByte, List.findIdx?_append, hn]
  simp

/-- A well-formed three-segment token. -/
def tokenBytes (encH encC encSig : Bytes) : Bytes :=
  encH ++ [46] ++ encC ++ [46] ++ encSig

/-- First delimiter of a well-formed token. -/
lemma tokenBytes_indexByte₁ (encH encC encSig : Bytes)
    (h : ∀ c ∈ encH, c ≠ 46) :
    indexByte (tokenBytes encH encC encSig) 46 = some encH.length := by
  have : tokenBytes encH encC encSig = encH ++ 46 :: (encC ++ [46] ++ encSig) := by
    simp [tokenBytes]
  rw [this, indexByte_append_dot _ _ h]

/-- Dropping past the first delimiter leaves claims, delimiter, signature. -/
lemma tokenBytes_drop₁ (encH encC encSig : Bytes) :
    (tokenBytes encH encC encSig).drop (encH.length + 1)
      = encC ++ 46 :: encSig := by
  have : tokenBytes encH encC encSig
      = (encH ++ [46]) ++ (encC ++ 46 :: encSig) := by
    simp [tokenBytes]
  rw [this, List.drop_left' (by simp)]

/-- The header segment of a well-formed token. -/
lemma tokenBytes_take₁ (encH encC encSig : Bytes) :
    (tokenBytes encH encC encSig).take encH.length = encH := by
  have : tokenBytes encH encC encSig
      = encH ++ ([46] ++ encC ++ [46] ++ encSig) := by
    simp [tokenBytes]
  rw [this, List.take_left' rfl]

/-- The signed byte range of a well-formed token: everything before the
second delimiter. -/
lemma tokenBytes_take₂ (encH encC encSig : Bytes) :
    (tokenBytes encH encC encSig).take (encH.length + 1 + encC.length)
      = encH ++ [46] ++ encC := by
  have : tokenBytes encH encC encSig
      = (encH ++ [46] ++ encC) ++ ([46] ++ encSig) := by
    simp [tokenBytes]
  rw [this, List.take_left' (by simp; omega)]

/-- The signature segment of a well-formed token. -/
lemma tokenBytes_drop₂ (encH encC encSig : Bytes) :
    (tokenBytes encH encC encSig).drop (encH.length + 1 + encC.length + 1)
      = encSig := by
  have : tokenBytes encH encC encSig
      = (encH ++ [46] ++ encC ++ [46]) ++ encSig := by
    simp [tokenBytes]
  rw [this, List.drop_left' (by simp; omega)]

/-- Total length of a well-formed token. -/
lemma tokenBytes_length (encH encC encSig : Bytes) :
    (tokenBytes encH encC encSig).length
      = encH.length + 1 + encC.length + 1 + encSig.length := by
  simp [tokenBytes]
  omega

/-! ### The behaviour of `verify` on well-formed tokens -/

/-- On a well-formed token whose header unmarshals to the expected algorithm
and whose signature the callback accepts, `verify` performs every step and
returns the decoded claims. -/
lemma verify_tokenBytes_ok (alg hJson cJson sig : Bytes)
    (fn : Bytes → Bytes → Except Err Unit)
    (hh : ∀ b ∈ hJson, b < 256) (hc : ∀ b ∈ cJson, b < 256)
    (hs : ∀ b ∈ sig, b < 256)
    (hun : ∀ h : Header, unmarshalHeader hJson = .ok h → h.algorithm = alg)
    (hunok : (unmarshalHeader hJson).isOk)
    (hfn : fn (b64urlEncode hJson ++ [46] ++ b64urlEncode cJson) sig = .ok ()) :
    verify alg
      (tokenBytes (b64urlEncode hJson) (b64urlEncode cJson) (b64urlEncode sig))
      fn
      = (.ok cJson,
         [.decodeHeader, .unmarshalHeader, .decodeSignature,
          .callVerifyFn (b64urlEncode hJson ++ [46] ++ b64urlEncode cJson) sig,
          .decodeClaims]) := by
  obtain ⟨hdr, hhdr⟩ : ∃ h, unmarshalHeader hJson = .ok h := by
    cases hu : unmarshalHeader hJson with
    | ok h => exact ⟨h, rfl⟩
    | error e => rw [hu] at hunok; simp [Except.isOk, Except.toBool] at hunok
  have halg : hdr.algorithm = alg := hun hdr hhdr
  have h1 := tokenBytes_indexByte₁ (b64urlEncode hJson) (b64urlEncode cJson)
    (b64urlEncode sig) (b64urlEncode_ne_dot hJson)
  have hdrop := tokenBytes_drop₁ (b64urlEncode hJson) (b64urlEncode cJson)
    (b64urlEncode sig)
  have h2 : indexByte ((tokenBytes (b64urlEncode hJson) (b64urlEncode cJson)
      (b64urlEncode sig)).drop ((b64urlEncode hJson).length + 1)) 46
      = some (b64urlEncode cJson).length := by
    rw [hdrop]
    exact indexByte_append_dot _ _ (b64urlEncode_ne_dot cJson)
  have htake1 := tokenBytes_take₁ (b64urlEncode hJson) (b64urlEncode cJson)
    (b64urlEncode sig)
  have hdecH : goDecode (b64DecodedLen (b64urlEncode hJson).length)
      ((tokenBytes (b64urlEncode hJson) (b64urlEncode cJson)
        (b64urlEncode sig)).take (b64urlEncode hJson).length) = .ok hJson := by
    rw [htake1]
    exact goDecode_b64urlEncode hJson hh
  have hlen := tokenBytes_length (b64urlEncode hJson) (b64urlEncode cJson)
    (b64urlEncode sig)
  have hdrop2 := tokenBytes_drop₂ (b64urlEncode hJson) (b64urlEncode cJson)
    (b64urlEncode sig)
  have hdecS : goDecode
      (b64DecodedLen ((tokenBytes (b64urlEncode hJson) (b64urlEncode cJson)
        (b64urlEncode sig)).length - (b64urlEncode hJson).length - 1 -
        (b64urlEncode cJson).length - 1))
      ((tokenBytes (b64urlEncode hJson) (b64urlEncode cJson)
        (b64urlEncode sig)).drop
        ((b64urlEncode hJson).length + 1 + (b64urlEncode cJson).length + 1))
      = .ok sig := by
    rw [hdrop2, hlen]
    have : (b64urlEncode hJson).length + 1 + (b64urlEncode cJson).length + 1 +
        (b64urlEncode sig).length - (b64urlEncode hJson).length - 1 -
        (b64urlEncode cJson).length - 1 = (b64urlEncode sig).length := by omega
    rw [this]
    exact goDecode_b64urlEncode sig hs
  have htake2 := tokenBytes_take₂ (b64urlEncode hJson) (b64urlEncode cJson)
    (b64urlEncode sig)
  have hfn2 : fn ((tokenBytes (b64urlEncode hJson) (b64urlEncode cJson)
      (b64urlEncode sig)).take
      ((b64urlEncode hJson).length + 1 + (b64urlEncode cJson).length)) sig
      = .ok () := by rw [htake2]; exact hfn
  have hdecC : goDecode (b64DecodedLen (b64urlEncode cJson).length)
      (((tokenBytes (b64urlEncode hJson) (b64urlEncode cJson)
        (b64urlEncode sig)).drop ((b64urlEncode hJson).length + 1)).take
        (b64urlEncode cJson).length) = .ok cJson := by
    rw [hdrop, List.take_left' rfl]
    exact goDecode_b64urlEncode cJson hc
  rw [verify, h1]
  simp only [h2, hdecH, hhdr, halg, ne_eq, not_true_eq_false, if_false,
    hdecS, hfn2, hdecC, htake2, hfn]

/-- When the callback produces a signature of exactly the declared length,
`sign` returns the well-formed token whose third segment encodes it (the
padding slot of the output buffer is empty). -/
lemma sign_ok (alg : Bytes) (sigLen : Nat) (cJson sig : Bytes)
    (fn : Bytes → Except Err Bytes)
    (hfn : fn (b64urlEncode (marshalHeader ⟨headerTypeJWT, alg⟩) ++ [46] ++
      b64urlEncode cJson) = .ok sig)
    (hl : sig.length = sigLen) :
    sign alg sigLen cJson fn
      = (.ok (tokenBytes (b64urlEncode (marshalHeader ⟨headerTypeJWT, alg⟩))
          (b64urlEncode cJson) (b64urlEncode sig)),
         [.callSignFn (b64urlEncode (marshalHeader ⟨headerTypeJWT, alg⟩) ++
           [46] ++ b64urlEncode cJson)]) := by
  rw [sign]
  simp only [hfn, hl, le_refl, if_true, Nat.sub_self, List.replicate_zero,
    List.append_nil]
  simp [tokenBytes, List.append_assoc]

/-- Structural case analysis of `verify`: either the callback was invoked and
accepted the signature, or the result is an error and the claims segment was
never base64url-decoded. -/
lemma verify_cases (alg s : Bytes) (fn : Bytes → Bytes → Except Err Unit) :
    (∃ d sg, Ev.callVerifyFn d sg ∈ (verify alg s fn).2 ∧ fn d sg = .ok ()) ∨
    ((∃ e, (verify alg s fn).1 = .error e) ∧
      Ev.decodeClaims ∉ (verify alg s fn).2) := by
  unfold verify
  split
  · right; exact ⟨⟨_, rfl⟩, by simp⟩
  · split
    · right; exact ⟨⟨_, rfl⟩, by simp⟩
    · split
      · right; exact ⟨⟨_, rfl⟩, by simp⟩
      · split
        · right; exact ⟨⟨_, rfl⟩, by simp⟩
        · rename_i header hun
          by_cases halg : header.algorithm ≠ alg
          · rw [if_pos halg]
            right; exact ⟨⟨_, rfl⟩, by simp⟩
          · rw [if_neg halg]
            split
            · right; exact ⟨⟨_, rfl⟩, by simp⟩
            · split
              · right; exact ⟨⟨_, rfl⟩, by simp⟩
              · rename_i a hfnok
                split
                · left
                  refine ⟨_, _, ?_, hfnok⟩
                  simp
                · left
                  refine ⟨_, _, ?_, hfnok⟩
                  simp

/-- When `verify` fails, the surrounding Verify function returns the same
error and hands back the caller's target value untouched. -/
lemma verifyInto_error {α : Type} (unm : Unmarshaller α) (v : α)
    (r : VerifyResult) (e : Err) (he : r.1 = .error e) :
    (verifyInto unm v r).1 = (.error e, v) ∧ (verifyInto unm v r).2 = r.2 := by
  obtain ⟨res, evs⟩ := r
  simp only at he
  subst he
  simp [verifyInto]

/-- The algorithm-mismatch branch of `verify`: a decodable header whose `alg`
differs from the caller's fixed algorithm yields exactly
`ErrInvalidSignature`, before the signature is even base64url-decoded. -/
lemma verify_alg_mismatch (alg s : Bytes) (fn : Bytes → Bytes → Except Err Unit)
    (i j : Nat) (dh : Bytes) (hdr : Header)
    (h1 : indexByte s 46 = some i)
    (h2 : indexByte (s.drop (i + 1)) 46 = some j)
    (h3 : goDecode (b64DecodedLen i) (s.take i) = .ok dh)
    (h4 : unmarshalHeader dh = .ok hdr)
    (h5 : hdr.algorithm ≠ alg) :
    verify alg s fn
      = (.error .invalidSignature, [.decodeHeader, .unmarshalHeader]) := by
  rw [verify, h1]
  simp only [h2, h3, h4, h5, ne_eq, not_false_eq_true, if_true]

/-- The missing-first-delimiter branch of `verify`. -/
lemma verify_no_dot (alg s : Bytes) (fn : Bytes → Bytes → Except Err Unit)
    (h : indexByte s 46 = none) :
    verify alg s fn = (.error .invalidSignature, []) := by
  rw [verify, h]

/-- The missing-second-delimiter branch of `verify`. -/
lemma verify_one_dot (alg s : Bytes) (fn : Bytes → Bytes → Except Err Unit)
    (i : Nat) (h1 : indexByte s 46 = some i)
    (h2 : indexByte (s.drop (i + 1)) 46 = none) :
    verify alg s fn = (.error .invalidSignature, []) := by
  rw [verify, h1]
  simp only [h2]

/-- A byte string with at most one `.` is either delimiter-free or splits as
a delimiter-free prefix, the one delimiter, and a delimiter-free suffix. -/
lemma count_dot_le_one_decomp (s : Bytes) (h : s.count 46 ≤ 1) :
    (∀ c ∈ s, c ≠ 46) ∨
    ∃ a b, s = a ++ 46 :: b ∧ (∀ c ∈ a, c ≠ 46) ∧ (∀ c ∈ b, c ≠ 46) := by
  induction s with
  | nil => left; simp
  | cons c t ih =>
    by_cases hc : c = 46
    · subst hc
      right
      refine ⟨[], t, by simp, by simp, ?_⟩
      have : t.count 46 = 0 := by
        have := List.count_cons_self 46 t
        omega
      intro x hx
      intro hx46
      subst hx46
      exact absurd (List.count_eq_zero.mp this) (by simp [hx])
    · have ht : t.count 46 ≤ 1 := by
        have := List.count_cons 46 c t
        simp [hc] at this
        omega
      rcases ih ht with h0 | ⟨a, b, rfl, ha, hb⟩
      · left
        intro x hx
        rcases List.mem_cons.mp hx with rfl | hx
        · exact hc
        · exact h0 x hx
      · right
        refine ⟨c :: a, b, by simp, ?_, hb⟩
        intro x hx
        rcases List.mem_cons.mp hx with rfl | hx
        · exact hc
        · exact ha x hx

/-! ### Big-endian scalar lemmas for the ES256 signature encoding -/

/-- Appending one low-order byte. -/
lemma setBytes_append_byte (a : Bytes) (b : Nat) :
    setBytes (a ++ [b]) = setBytes a * 256 + b := by
  simp [setBytes]

/-- `SetBytes` inverts `Bytes`. -/
lemma setBytes_bigIntBytes (n : Nat) : setBytes (bigIntBytes n) = n := by
  induction n using Nat.strong_induction_on with
  | _ n ih =>
    by_cases h : n = 0
    · subst h
      rw [bigIntBytes]
      simp [setBytes]
    · rw [bigIntBytes, if_neg h, setBytes_append_byte,
        ih (n / 256) (Nat.div_lt_self (Nat.pos_of_ne_zero h) (by omega))]
      omega

/-- Leading zero bytes do not change the value. -/
lemma setBytes_replicate_zero_append (k : Nat) (bs : Bytes) :
    setBytes (List.replicate k 0 ++ bs) = setBytes bs := by
  induction k with
  | zero => simp
  | succ k ih =>
      rw [List.replicate_succ, List.cons_append]
      simpa [setBytes] using ih

/-- A scalar below `256^k` needs at most `k` big-endian bytes. -/
lemma bigIntBytes_length_le (k : Nat) :
    ∀ n, n < 256 ^ k → (bigIntBytes n).length ≤ k := by
  induction k with
  | zero =>
      intro n hn
      interval_cases n
      simp [bigIntBytes]
  | succ k ih =>
      intro n hn
      by_cases h : n = 0
      · subst h; simp [bigIntBytes]
      · rw [bigIntBytes, if_neg h]
        have : n / 256 < 256 ^ k := by
          rw [Nat.div_lt_iff_lt_mul (by omega)]
          calc n < 256 ^ (k + 1) := hn
          _ = 256 ^ k * 256 := by ring
        have := ih (n / 256) this
        simp only [List.length_append, List.length_cons, List.length_nil]
        omega

/-- Every byte of a big-endian representation is a byte value. -/
lemma bigIntBytes_lt (n : Nat) : ∀ b ∈ bigIntBytes n, b < 256 := by
  induction n using Nat.strong_induction_on with
  | _ n ih =>
    by_cases h : n = 0
    · subst h; simp [bigIntBytes]
    · rw [bigIntBytes, if_neg h]
      intro b hb
      rcases List.mem_append.mp hb with hb | hb
      · exact ih (n / 256) (Nat.div_lt_self (Nat.pos_of_ne_zero h) (by omega)) b hb
      · simp at hb
        omega

/-- The fixed-width ES256 signature is exactly 64 bytes for P-256 scalars. -/
lemma es256SigEncode_length (r s : Nat) (hr : r < 2 ^ 256) (hs : s < 2 ^ 256) :
    (es256SigEncode r s).length = 64 := by
  have h256 : (2 : Nat) ^ 256 = 256 ^ 32 := by norm_num
  have hrl := bigIntBytes_length_le 32 r (h256 ▸ hr)
  have hsl := bigIntBytes_length_le 32 s (h256 ▸ hs)
  simp only [es256SigEncode, List.length_append, List.length_replicate]
  omega

/-- The first half of the encoded signature is the padded `r` scalar, and
`SetBytes` on it recovers `r`; likewise for `s` on the second half. -/
lemma es256SigEncode_halves (r s : Nat) (hr : r < 2 ^ 256) (hs : s < 2 ^ 256) :
    setBytes ((es256SigEncode r s).take 32) = r ∧
    setBytes ((es256SigEncode r s).drop 32) = s := by
  have h256 : (2 : Nat) ^ 256 = 256 ^ 32 := by norm_num
  have hrl := bigIntBytes_length_le 32 r (h256 ▸ hr)
  have hsl := bigIntBytes_length_le 32 s (h256 ▸ hs)
  have hlen : (List.replicate (32 - (bigIntBytes r).length) 0 ++
      bigIntBytes r).length = 32 := by
    simp only [List.length_append, List.length_replicate]
    omega
  constructor
  · rw [es256SigEncode, List.take_left' hlen,
      setBytes_replicate_zero_append, setBytes_bigIntBytes]
  · rw [es256SigEncode, List.drop_left' hlen,
      setBytes_replicate_zero_append, setBytes_bigIntBytes]

/-! ### The claims -/

/-- C7: the ES256 signature is exactly 64 bytes — the big-endian `r` scalar
left-zero-padded to 32 bytes followed by the big-endian `s` scalar
left-zero-padded to 32 bytes — and the verify side of the binding reads the
same fixed-width encoding back (splitting at byte 32 and interpreting each
half big-endian), so for every `r` and `s` below `2^256` (including scalars
whose big-endian form is shorter than 32 bytes) a signature produced by the
sign operation passes the length check, reconstructs exactly `r` and `s`, and
is accepted whenever the ECDSA primitive accepts `(r, s)` for the digest. -/
theorem claim_C7_es256_fixed_width (r s : Nat) (hr : r < 2 ^ 256)
    (hs : s < 2 ^ 256) (ecdsaVerify : Bytes → Nat → Nat → Bool)
    (hash : Bytes → Bytes) (data : Bytes)
    (hacc : ecdsaVerify (hash data) r s = true) :
    (es256SigEncode r s).length = 64 ∧
    es256SigEncode r s =
      (List.replicate (32 - (bigIntBytes r).length) 0 ++ bigIntBytes r) ++
      (List.replicate (32 - (bigIntBytes s).length) 0 ++ bigIntBytes s) ∧
    setBytes ((es256SigEncode r s).take 32) = r ∧
    setBytes ((es256SigEncode r s).drop 32) = s ∧
    (es256Check ecdsaVerify hash data (es256SigEncode r s)).1 = .ok () := by
  have hlen := es256SigEncode_length r s hr hs
  have hhalves := es256SigEncode_halves r s hr hs
  refine ⟨hlen, rfl, hhalves.1, hhalves.2, ?_⟩
  rw [es256Check, if_neg (by omega)]
  simp only [hhalves.1, hhalves.2, hacc, if_true]

/-- C7 witness: a scalar pair with a short big-endian form round-trips
through the fixed-width encoding and is accepted. -/
theorem claim_C7_witness :
    (1 : Nat) < 2 ^ 256 ∧ (256 : Nat) < 2 ^ 256 ∧
    (es256SigEncode 1 256).length = 64 ∧
    setBytes ((es256SigEncode 1 256).take 32) = 1 ∧
    setBytes ((es256SigEncode 1 256).drop 32) = 256 ∧
    (es256Check (fun _ r s => r == 1 && s == 256) (fun d => d) []
      (es256SigEncode 1 256)).1 = .ok () := by
  have h := claim_C7_es256_fixed_width 1 256 (by norm_num) (by norm_num)
    (fun _ r s => r == 1 && s == 256) (fun d => d) [] (by decide)
  exact ⟨by norm_num, by norm_num, h.1, h.2.2.1, h.2.2.2.1, h.2.2.2.2⟩

/-- Strictly-after is the negation of at-or-before. -/
lemma GoTime.after_iff_not_le (t u : GoTime) :
    GoTime.after t u = true ↔ ¬ (GoTime.le t u = true) := by
  rcases t with ⟨a, b⟩
  rcases u with ⟨c, d⟩
  simp [GoTime.after, GoTime.le]
  omega

/-- Strictly-before is the negation of at-or-after. -/
lemma GoTime.before_iff_not_ge (t u : GoTime) :
    GoTime.before t u = true ↔ ¬ (GoTime.ge t u = true) := by
  rcases t with ⟨a, b⟩
  rcases u with ⟨c, d⟩
  simp [GoTime.before, GoTime.ge]
  omega

/-- C8: `VerifyExpirationTime` succeeds exactly when `now` is at or before
the instant `time.Unix(expirationTime, 0)`, fails with `ErrExpiredToken`
exactly when `now` is strictly after it, and in particular the boundary
instant itself is valid while one second past it is expired. -/
theorem claim_C8_expiration_boundary (c : StandardClaims) (now : GoTime) :
    (VerifyExpirationTime c now = .ok () ↔
      GoTime.le now (timeUnix c.expirationTime) = true) ∧
    (VerifyExpirationTime c now = .error .expiredToken ↔
      GoTime.after now (timeUnix c.expirationTime) = true) ∧
    VerifyExpirationTime c (timeUnix c.expirationTime) = .ok () ∧
    VerifyExpirationTime c ⟨c.expirationTime + 1, 0⟩ = .error .expiredToken := by
  refine ⟨?_, ?_, ?_, ?_⟩
  · rw [VerifyExpirationTime]
    split
    · rename_i h
      simp [(GoTime.after_iff_not_le _ _).mp h]
    · rename_i h
      have hle : GoTime.le now (timeUnix c.expirationTime) = true := by
        by_contra hc
        exact h ((GoTime.after_iff_not_le _ _).mpr hc)
      simp [hle]
  · rw [VerifyExpirationTime]
    split <;> rename_i h <;> simp [h]
  · rw [VerifyExpirationTime, if_neg (by simp [GoTime.after, timeUnix])]
  · rw [VerifyExpirationTime,
      if_pos (by simp [GoTime.after, timeUnix]; try omega)]

/-- C9: `VerifyNotBefore` succeeds exactly when `now` is at or after the
instant `time.Unix(notBefore, 0)`, fails with `ErrExpiredToken` exactly when
`now` is strictly before it, and in particular the boundary instant itself is
valid while one second before it is rejected. -/
theorem claim_C9_notbefore_boundary (c : StandardClaims) (now : GoTime) :
    (VerifyNotBefore c now = .ok () ↔
      GoTime.ge now (timeUnix c.notBefore) = true) ∧
    (VerifyNotBefore c now = .error .expiredToken ↔
      GoTime.before now (timeUnix c.notBefore) = true) ∧
    VerifyNotBefore c (timeUnix c.notBefore) = .ok () ∧
    VerifyNotBefore c ⟨c.notBefore - 1, 0⟩ = .error .expiredToken := by
  refine ⟨?_, ?_, ?_, ?_⟩
  · rw [VerifyNotBefore]
    split
    · rename_i h
      simp [(GoTime.before_iff_not_ge _ _).mp h]
    · rename_i h
      have hge : GoTime.ge now (timeUnix c.notBefore) = true := by
        by_contra hc
        exact h ((GoTime.before_iff_not_ge _ _).mpr hc)
      simp [hge]
  · rw [VerifyNotBefore]
    split <;> rename_i h <;> simp [h]
  · rw [VerifyNotBefore, if_neg (by simp [GoTime.before, timeUnix])]
  · rw [VerifyNotBefore,
      if_pos (by simp [GoTime.before, timeUnix]; try omega)]

/-- C10: with `ExpirationTime` left at its zero value, `VerifyExpirationTime`
fails with `ErrExpiredToken` at every instant strictly after the Unix epoch —
an absent expiration claim means the token is treated as already expired, not
as having no expiry. -/
theorem claim_C10_zero_exp_expired (c : StandardClaims) (now : GoTime)
    (h0 : c.expirationTime = 0)
    (h : GoTime.after now (timeUnix 0) = true) :
    VerifyExpirationTime c now = .error .expiredToken := by
  rw [VerifyExpirationTime, h0, if_pos h]

/-- C10 witness: one second past the epoch, a zero `exp` claim is already
expired. -/
theorem claim_C10_witness :
    ({} : StandardClaims).expirationTime = 0 ∧
    GoTime.after ⟨1, 0⟩ (timeUnix 0) = true ∧
    VerifyExpirationTime {} ⟨1, 0⟩ = .error .expiredToken :=
  ⟨rfl, by decide, claim_C10_zero_exp_expired {} ⟨1, 0⟩ rfl (by decide)⟩

/-- C1: whenever a step before or during signature verification fails — the
callback is never invoked, or every invocation of it rejects — `verify`
returns an error without the claims segment ever being base64url-decoded, and
each of `VerifyHS256` / `VerifyRS256` / `VerifyES256` additionally returns the
caller's target value unchanged (the claims are never handed to the JSON
deserializer). -/
theorem claim_C1_no_claims_before_verification
    {α : Type} (alg s : Bytes) (fn : Bytes → Bytes → Except Err Unit)
    (unm : Unmarshaller α) (v : α)
    (hmac : Bytes → Bytes → Bytes) (secret : Bytes)
    (rsaVerifyPKCS1v15 : Bytes → Bytes → Bool) (hashR : Bytes → Bytes)
    (ecdsaVerify : Bytes → Nat → Nat → Bool) (hashE : Bytes → Bytes)
    (hfn : ∀ d sg, Ev.callVerifyFn d sg ∈ (verify alg s fn).2 →
      fn d sg ≠ .ok ())
    (hH : ∀ d sg, Ev.callVerifyFn d sg ∈
      (verify algHS256 s (fun data sig => (hs256Check hmac secret data sig).1)).2 →
      (hs256Check hmac secret d sg).1 ≠ .ok ())
    (hR : ∀ d sg, Ev.callVerifyFn d sg ∈
      (verify algRS256 s
        (fun data sig => (rs256Check rsaVerifyPKCS1v15 hashR data sig).1)).2 →
      (rs256Check rsaVerifyPKCS1v15 hashR d sg).1 ≠ .ok ())
    (hE : ∀ d sg, Ev.callVerifyFn d sg ∈
      (verify algES256 s
        (fun data sig => (es256Check ecdsaVerify hashE data sig).1)).2 →
      (es256Check ecdsaVerify hashE d sg).1 ≠ .ok ()) :
    ((∃ e, (verify alg s fn).1 = .error e) ∧
      Ev.decodeClaims ∉ (verify alg s fn).2) ∧
    ((∃ e, (VerifyHS256 hmac unm secret s v).1 = (.error e, v)) ∧
      Ev.decodeClaims ∉ (VerifyHS256 hmac unm secret s v).2) ∧
    ((∃ e, (VerifyRS256 rsaVerifyPKCS1v15 hashR unm s v).1 = (.error e, v)) ∧
      Ev.decodeClaims ∉ (VerifyRS256 rsaVerifyPKCS1v15 hashR unm s v).2) ∧
    ((∃ e, (VerifyES256 ecdsaVerify hashE unm s v).1 = (.error e, v)) ∧
      Ev.decodeClaims ∉ (VerifyES256 ecdsaVerify hashE unm s v).2) := by
  have key : ∀ (a' : Bytes) (fn' : Bytes → Bytes → Except Err Unit),
      (∀ d sg, Ev.callVerifyFn d sg ∈ (verify a' s fn').2 →
        fn' d sg ≠ .ok ()) →
      (∃ e, (verify a' s fn').1 = .error e) ∧
        Ev.decodeClaims ∉ (verify a' s fn').2 := by
    intro a' fn' h'
    rcases verify_cases a' s fn' with ⟨d, sg, hm, hok⟩ | hr
    · exact absurd hok (h' d sg hm)
    · exact hr
  refine ⟨key alg fn hfn, ?_, ?_, ?_⟩
  · obtain ⟨⟨e, he⟩, hni⟩ := key algHS256 _ hH
    have h2 := verifyInto_error unm v
      (verify algHS256 s (fun data sig => (hs256Check hmac secret data sig).1))
      e he
    refine ⟨⟨e, ?_⟩, ?_⟩
    · rw [VerifyHS256]; exact h2.1
    · rw [VerifyHS256, h2.2]; exact hni
  · obtain ⟨⟨e, he⟩, hni⟩ := key algRS256 _ hR
    have h2 := verifyInto_error unm v
      (verify algRS256 s
        (fun data sig => (rs256Check rsaVerifyPKCS1v15 hashR data sig).1))
      e he
    refine ⟨⟨e, ?_⟩, ?_⟩
    · rw [VerifyRS256]; exact h2.1
    · rw [VerifyRS256, h2.2]; exact hni
  · obtain ⟨⟨e, he⟩, hni⟩ := key algES256 _ hE
    have h2 := verifyInto_error unm v
      (verify algES256 s
        (fun data sig => (es256Check ecdsaVerify hashE data sig).1))
      e he
    refine ⟨⟨e, ?_⟩, ?_⟩
    · rw [VerifyES256]; exact h2.1
    · rw [VerifyES256, h2.2]; exact hni

/-- C1 witness: on a delimiter-free input no verification step can succeed,
and the HS256 wrapper hands back the target value unchanged. -/
theorem claim_C1_witness :
    (∃ e, (VerifyHS256 (fun _ _ => []) (fun _ v => (Except.ok (), v))
      [] [120] false).1 = (.error e, false)) ∧
    Ev.decodeClaims ∉ (VerifyHS256 (fun _ _ => []) (fun _ v => (Except.ok (), v))
      [] [120] false).2 :=
  (claim_C1_no_claims_before_verification (asciiBytes "HS256") [120]
    (fun _ _ => .error .invalidSignature) (fun _ v => (Except.ok (), v)) false
    (fun _ _ => []) [] (fun _ _ => false) (fun d => d)
    (fun _ _ _ => false) (fun d => d)
    (by intro d sg hm; rw [verify_no_dot _ _ _ (by decide)] at hm; simp at hm)
    (by intro d sg hm; rw [verify_no_dot _ _ _ (by decide)] at hm; simp at hm)
    (by intro d sg hm; rw [verify_no_dot _ _ _ (by decide)] at hm; simp at hm)
    (by intro d sg hm; rw [verify_no_dot _ _ _ (by decide)] at hm;
        simp at hm)).2.1

/-- C2: a decodable header whose `alg` differs from the caller's fixed
algorithm makes `verify` fail with exactly `ErrInvalidSignature` — the very
same error value the HS256 callback produces for a cryptographically bad
signature — and not with the older distinct wrong-algorithm error. -/
theorem claim_C2_alg_mismatch_same_error (alg s : Bytes)
    (fn : Bytes → Bytes → Except Err Unit) (i j : Nat) (dh : Bytes)
    (hdr : Header)
    (h1 : indexByte s 46 = some i)
    (h2 : indexByte (s.drop (i + 1)) 46 = some j)
    (h3 : goDecode (b64DecodedLen i) (s.take i) = .ok dh)
    (h4 : unmarshalHeader dh = .ok hdr)
    (h5 : hdr.algorithm ≠ alg)
    (hmac : Bytes → Bytes → Bytes) (secret d sg : Bytes)
    (hbad : hmac secret d ≠ sg) :
    (verify alg s fn).1 = .error .invalidSignature ∧
    (hs256Check hmac secret d sg).1 = .error .invalidSignature ∧
    (verify alg s fn).1 ≠ .error .wrongAlgorithm := by
  have hv := verify_alg_mismatch alg s fn i j dh hdr h1 h2 h3 h4 h5
  refine ⟨by rw [hv], ?_, by rw [hv]; simp⟩
  rw [hs256Check]
  simp [hbad]

/-- C2 witness: a token carrying an RS256 header is rejected by the
HS256-bound `verify` with the same `ErrInvalidSignature` a bad MAC gives. -/
theorem claim_C2_witness :
    (verify algHS256
      (tokenBytes (b64urlEncode (marshalHeader ⟨headerTypeJWT, algRS256⟩))
        (b64urlEncode (asciiBytes "{}")) (b64urlEncode [1, 2, 3]))
      (fun _ _ => .ok ())).1 = .error .invalidSignature ∧
    (hs256Check (fun _ _ => []) [] [] [0]).1 = .error .invalidSignature ∧
    (verify algHS256
      (tokenBytes (b64urlEncode (marshalHeader ⟨headerTypeJWT, algRS256⟩))
        (b64urlEncode (asciiBytes "{}")) (b64urlEncode [1, 2, 3]))
      (fun _ _ => .ok ())).1 ≠ .error .wrongAlgorithm :=
  claim_C2_alg_mismatch_same_error algHS256 _ _
    (b64urlEncode (marshalHeader ⟨headerTypeJWT, algRS256⟩)).length
    (b64urlEncode (asciiBytes "{}")).length
    (marshalHeader ⟨headerTypeJWT, algRS256⟩) ⟨headerTypeJWT, algRS256⟩
    (by decide) (by decide) (by decide) (by decide) (by decide)
    (fun _ _ => []) [] [] [0] (by decide)

/-- C5 counterexample: on an input with no `.` at all, the current `verify`
rejects with the generic `ErrInvalidSignature`, which is not the distinct
malformed-token error (`ErrNotEnoughParts`) that the older segment codec
`parts.Parse` returns for the same input. -/
theorem claim_C5_counterexample :
    (verify algHS256 (asciiBytes "abc")
        (fun _ _ => Except.error Err.invalidSignature)).1
      = .error .invalidSignature ∧
    partsParse (asciiBytes "abc") = .error .notEnoughParts ∧
    Err.invalidSignature ≠ Err.notEnoughParts := by
  decide

/-- C5 as amended: an input with zero or one `.` characters is rejected by
`verify` with the generic `ErrInvalidSignature` (the current code defines no
distinct malformed-token error on this path), and the cryptographic callback
is never invoked; the older segment codec `parts.Parse` rejects the same
inputs with its distinct `ErrNotEnoughParts`. -/
theorem claim_C5_amended (alg s : Bytes)
    (fn : Bytes → Bytes → Except Err Unit) (h : s.count 46 ≤ 1) :
    (verify alg s fn).1 = .error .invalidSignature ∧
    (∀ d sg, Ev.callVerifyFn d sg ∉ (verify alg s fn).2) ∧
    partsParse s = .error .notEnoughParts := by
  rcases count_dot_le_one_decomp s h with h0 | ⟨a, b, rfl, ha, hb⟩
  · have hn := indexByte_eq_none s h0
    have hv := verify_no_dot alg s fn hn
    refine ⟨by rw [hv], by intro d sg; rw [hv]; simp, ?_⟩
    rw [partsParse, bytesSplitN3, hn]
  · have h1 := indexByte_append_dot a b ha
    have hdrop : (a ++ 46 :: b).drop (a.length + 1) = b := by
      have : a ++ 46 :: b = (a ++ [46]) ++ b := by simp
      rw [this, List.drop_left' (by simp)]
    have h2 : indexByte ((a ++ 46 :: b).drop (a.length + 1)) 46 = none := by
      rw [hdrop]; exact indexByte_eq_none b hb
    have hv := verify_one_dot alg _ fn a.length h1 h2
    refine ⟨by rw [hv], by intro d sg; rw [hv]; simp, ?_⟩
    rw [partsParse, bytesSplitN3, h1]
    simp only [h2]

/-- C5 amended witness: a single-delimiter input is rejected without the
callback being invoked, even by a callback that accepts everything. -/
theorem claim_C5_witness :
    (asciiBytes "ab.c").count 46 ≤ 1 ∧
    (verify algHS256 (asciiBytes "ab.c") (fun _ _ => .ok ())).1
      = .error .invalidSignature ∧
    partsParse (asciiBytes "ab.c") = .error .notEnoughParts := by
  have h := claim_C5_amended algHS256 (asciiBytes "ab.c") (fun _ _ => .ok ())
    (by decide)
  exact ⟨by decide, h.1, h.2.2⟩

/-- Decomposing the signed byte range at the two delimiter positions the
scanner found: it is exactly the header segment, one `.`, and the claims
segment. -/
lemma take_signing_input (s : Bytes) (i j : Nat)
    (h1 : indexByte s 46 = some i)
    (_h2 : indexByte (s.drop (i + 1)) 46 = some j) :
    s.take (i + 1 + j) = s.take i ++ [46] ++ (s.drop (i + 1)).take j := by
  rw [indexByte] at h1
  obtain ⟨hi, hp, -⟩ := List.findIdx?_eq_some_iff_getElem.mp h1
  have hget : s[i]? = some 46 := by
    rw [List.getElem?_eq_getElem hi]
    simpa using hp
  have hta : s.take (i + 1 + j) = s.take (i + 1) ++ (s.drop (i + 1)).take j :=
    List.take_add s (i + 1) j
  have htb : s.take (i + 1) = s.take i ++ [46] := by
    rw [List.take_succ, hget]
    rfl
  rw [hta, htb]

/-- The byte range `verify` hands to its callback is always delimited by the
two `.` positions the scanner found. -/
lemma verify_callVerifyFn_mem (alg s : Bytes)
    (fn : Bytes → Bytes → Except Err Unit) (d sg : Bytes)
    (hm : Ev.callVerifyFn d sg ∈ (verify alg s fn).2) :
    ∃ i j, indexByte s 46 = some i ∧
      indexByte (s.drop (i + 1)) 46 = some j ∧ d = s.take (i + 1 + j) := by
  rw [verify] at hm
  cases h1 : indexByte s 46 with
  | none => simp only [h1] at hm; simp at hm
  | some i =>
    simp only [h1] at hm
    cases h2 : indexByte (s.drop (i + 1)) 46 with
    | none => simp only [h2] at hm; simp at hm
    | some j =>
      simp only [h2] at hm
      refine ⟨i, j, rfl, h2, ?_⟩
      cases h3 : goDecode (b64DecodedLen i) (s.take i) with
      | error e => simp only [h3] at hm; simp at hm
      | ok dh =>
        simp only [h3] at hm
        cases h4 : unmarshalHeader dh with
        | error e => simp only [h4] at hm; simp at hm
        | ok hd =>
          simp only [h4] at hm
          by_cases h5 : hd.algorithm ≠ alg
          · rw [if_pos h5] at hm; simp at hm
          · rw [if_neg h5] at hm
            cases h6 : goDecode (b64DecodedLen (s.length - i - 1 - j - 1))
                (s.drop (i + 1 + j + 1)) with
            | error e => simp only [h6] at hm; simp at hm
            | ok ds =>
              simp only [h6] at hm
              cases h7 : fn (s.take (i + 1 + j)) ds with
              | error e =>
                simp only [h7] at hm
                simp at hm
                exact hm.1
              | ok a =>
                simp only [h7] at hm
                cases h8 : goDecode (b64DecodedLen j)
                    ((s.drop (i + 1)).take j) with
                | error e =>
                    simp only [h8] at hm
                    simp at hm
                    exact hm.1
                | ok dc =>
                    simp only [h8] at hm
                    simp at hm
                    exact hm.1

/-- The byte range `sign` hands to its callback is the encoded header, one
`.`, and the encoded claims. -/
lemma sign_callSignFn_mem (alg : Bytes) (sigLen : Nat) (cJson : Bytes)
    (fn : Bytes → Except Err Bytes) (d : Bytes)
    (hm : Ev.callSignFn d ∈ (sign alg sigLen cJson fn).2) :
    d = b64urlEncode (marshalHeader ⟨headerTypeJWT, alg⟩) ++ [46] ++
      b64urlEncode cJson := by
  simp only [sign] at hm
  cases hf : fn (b64urlEncode (marshalHeader ⟨headerTypeJWT, alg⟩) ++ [46] ++
      b64urlEncode cJson) with
  | error e =>
      simp only [hf] at hm
      simpa using hm
  | ok sig =>
      simp only [hf] at hm
      split at hm <;> simpa using hm

/-- C3: the byte range handed to the signing callback is exactly
`base64url(header-json) "." base64url(claims-json)` — no trailing separator,
no signature bytes, nothing else; and the byte range handed to the verifying
callback is exactly the same range of the input token, the bytes before the
second `.`: the header segment, one `.`, and the claims segment. -/
theorem claim_C3_signing_input (alg : Bytes) (sigLen : Nat) (cJson : Bytes)
    (fnS : Bytes → Except Err Bytes) (s : Bytes)
    (fnV : Bytes → Bytes → Except Err Unit) (d dv sg : Bytes)
    (hsign : Ev.callSignFn d ∈ (sign alg sigLen cJson fnS).2)
    (hver : Ev.callVerifyFn dv sg ∈ (verify alg s fnV).2) :
    d = b64urlEncode (marshalHeader ⟨headerTypeJWT, alg⟩) ++ [46] ++
      b64urlEncode cJson ∧
    ∃ i j, indexByte s 46 = some i ∧
      indexByte (s.drop (i + 1)) 46 = some j ∧
      dv = s.take (i + 1 + j) ∧
      dv = s.take i ++ [46] ++ (s.drop (i + 1)).take j := by
  refine ⟨sign_callSignFn_mem alg sigLen cJson fnS d hsign, ?_⟩
  obtain ⟨i, j, h1, h2, hd⟩ := verify_callVerifyFn_mem alg s fnV dv sg hver
  exact ⟨i, j, h1, h2, hd, by rw [hd, take_signing_input s i j h1 h2]⟩

/-- C3 witness: a concrete sign run and a concrete verify run, with the
callback inputs pinned to the exact segment ranges. -/
theorem claim_C3_witness :
    Ev.callSignFn (b64urlEncode (marshalHeader ⟨headerTypeJWT, algHS256⟩) ++
        [46] ++ b64urlEncode (asciiBytes "\x7b\x7d")) ∈
      (sign algHS256 32 (asciiBytes "\x7b\x7d")
        (fun _ => .ok (List.replicate 32 0))).2 ∧
    (∃ i j,
      indexByte (tokenBytes
        (b64urlEncode (marshalHeader ⟨headerTypeJWT, algHS256⟩))
        (b64urlEncode (asciiBytes "\x7b\x7d")) (b64urlEncode [1, 2, 3])) 46
        = some i ∧
      indexByte ((tokenBytes
        (b64urlEncode (marshalHeader ⟨headerTypeJWT, algHS256⟩))
        (b64urlEncode (asciiBytes "\x7b\x7d"))
        (b64urlEncode [1, 2, 3])).drop (i + 1)) 46 = some j ∧
      (b64urlEncode (marshalHeader ⟨headerTypeJWT, algHS256⟩) ++ [46] ++
        b64urlEncode (asciiBytes "\x7b\x7d")) =
        (tokenBytes (b64urlEncode (marshalHeader ⟨headerTypeJWT, algHS256⟩))
          (b64urlEncode (asciiBytes "\x7b\x7d"))
          (b64urlEncode [1, 2, 3])).take (i + 1 + j) ∧
      (b64urlEncode (marshalHeader ⟨headerTypeJWT, algHS256⟩) ++ [46] ++
        b64urlEncode (asciiBytes "\x7b\x7d")) =
        (tokenBytes (b64urlEncode (marshalHeader ⟨headerTypeJWT, algHS256⟩))
          (b64urlEncode (asciiBytes "\x7b\x7d"))
          (b64urlEncode [1, 2, 3])).take i ++ [46] ++
        ((tokenBytes (b64urlEncode (marshalHeader ⟨headerTypeJWT, algHS256⟩))
          (b64urlEncode (asciiBytes "\x7b\x7d"))
          (b64urlEncode [1, 2, 3])).drop (i + 1)).take j) := by
  have h := claim_C3_signing_input algHS256 32 (asciiBytes "\x7b\x7d")
    (fun _ => .ok (List.replicate 32 0))
    (tokenBytes (b64urlEncode (marshalHeader ⟨headerTypeJWT, algHS256⟩))
      (b64urlEncode (asciiBytes "\x7b\x7d")) (b64urlEncode [1, 2, 3]))
    (fun _ _ => .ok ())
    (b64urlEncode (marshalHeader ⟨headerTypeJWT, algHS256⟩) ++ [46] ++
      b64urlEncode (asciiBytes "\x7b\x7d"))
    (b64urlEncode (marshalHeader ⟨headerTypeJWT, algHS256⟩) ++ [46] ++
      b64urlEncode (asciiBytes "\x7b\x7d"))
    [1, 2, 3] (by decide) (by decide)
  exact ⟨by decide, h.2⟩

/-- C6 counterexample: for a wrong-length signature the HS256 callback still
invokes `hmac.Equal` (the comparison primitive — second component `true`) and
the RS256 callback still invokes `rsa.VerifyPKCS1v15`; only the ES256
callback rejects before touching the primitive (second component `false`).
So the claim's "without invoking the underlying cryptographic comparison
primitive" fails for HS256 and RS256. -/
theorem claim_C6_counterexample :
    (hs256Check (fun _ _ => List.replicate 32 0) [] [] [1, 2, 3]).2 = true ∧
    (hs256Check (fun _ _ => List.replicate 32 0) [] [] [1, 2, 3]).1
      = .error .invalidSignature ∧
    (rs256Check (fun _ _ => false) (fun d => d) [] [1, 2, 3]).2 = true ∧
    (es256Check (fun _ _ _ => true) (fun d => d) [] [1, 2, 3]).2 = false := by
  decide

/-- C6 as amended: only ES256 rejects a wrong-length signature (≠ 64 bytes)
before invoking the cryptographic primitive; HS256 always invokes the
`hmac.Equal` comparison, which rejects a signature whose length differs from
the 32-byte MAC, and RS256 always invokes `rsa.VerifyPKCS1v15`, relying on
the primitive's own internal length check to reject. -/
theorem claim_C6_amended
    (ecdsaVerify : Bytes → Nat → Nat → Bool) (hashE : Bytes → Bytes)
    (hmac : Bytes → Bytes → Bytes) (secret : Bytes)
    (rsaVerifyPKCS1v15 : Bytes → Bytes → Bool) (hashR : Bytes → Bytes)
    (data sig : Bytes)
    (hE : sig.length ≠ 64)
    (hH : (hmac secret data).length ≠ sig.length)
    (hR : rsaVerifyPKCS1v15 (hashR data) sig = false) :
    es256Check ecdsaVerify hashE data sig = (.error .invalidSignature, false) ∧
    hs256Check hmac secret data sig = (.error .invalidSignature, true) ∧
    rs256Check rsaVerifyPKCS1v15 hashR data sig
      = (.error .invalidSignature, true) := by
  refine ⟨?_, ?_, ?_⟩
  · rw [es256Check, if_pos hE]
  · have hne : hmac secret data ≠ sig := fun h => hH (by rw [h])
    rw [hs256Check]
    simp [hne]
  · rw [rs256Check]
    simp [hR]

/-- C6 amended witness: a 1-byte signature at each binding. -/
theorem claim_C6_witness :
    ([9] : Bytes).length ≠ 64 ∧
    es256Check (fun _ _ _ => true) (fun d => d) [] [9]
      = (.error .invalidSignature, false) ∧
    hs256Check (fun _ _ => List.replicate 32 0) [] [] [9]
      = (.error .invalidSignature, true) ∧
    rs256Check (fun _ _ => false) (fun d => d) [] [9]
      = (.error .invalidSignature, true) := by
  have h := claim_C6_amended (fun _ _ _ => true) (fun d => d)
    (fun _ _ => List.replicate 32 0) [] (fun _ _ => false) (fun d => d)
    [] [9] (by decide) (by decide) rfl
  exact ⟨by decide, h.1, h.2.1, h.2.2⟩

/-- The marshalled HS256 header is a genuine byte string. -/
lemma marshalHeader_lt_HS256 :
    ∀ b ∈ marshalHeader ⟨headerTypeJWT, algHS256⟩, b < 256 := by decide

/-- The marshalled RS256 header is a genuine byte string. -/
lemma marshalHeader_lt_RS256 :
    ∀ b ∈ marshalHeader ⟨headerTypeJWT, algRS256⟩, b < 256 := by decide

/-- The marshalled ES256 header is a genuine byte string. -/
lemma marshalHeader_lt_ES256 :
    ∀ b ∈ marshalHeader ⟨headerTypeJWT, algES256⟩, b < 256 := by decide

/-- Unmarshalling inverts marshalling on the HS256 header. -/
lemma unmarshalHeader_HS256 :
    unmarshalHeader (marshalHeader ⟨headerTypeJWT, algHS256⟩)
      = .ok ⟨headerTypeJWT, algHS256⟩ := by decide

/-- Unmarshalling inverts marshalling on the RS256 header. -/
lemma unmarshalHeader_RS256 :
    unmarshalHeader (marshalHeader ⟨headerTypeJWT, algRS256⟩)
      = .ok ⟨headerTypeJWT, algRS256⟩ := by decide

/-- Unmarshalling inverts marshalling on the ES256 header. -/
lemma unmarshalHeader_ES256 :
    unmarshalHeader (marshalHeader ⟨headerTypeJWT, algES256⟩)
      = .ok ⟨headerTypeJWT, algES256⟩ := by decide

/-- The fixed-width ES256 signature is a genuine byte string. -/
lemma es256SigEncode_mem_lt (r s : Nat) :
    ∀ b ∈ es256SigEncode r s, b < 256 := by
  intro b hb
  rw [es256SigEncode] at hb
  rcases List.mem_append.mp hb with hb | hb <;>
    rcases List.mem_append.mp hb with hb | hb <;>
    first
      | (have hz := List.eq_of_mem_replicate hb; omega)
      | exact bigIntBytes_lt _ b hb

/-- The common sign-then-verify round trip: when the signing callback yields
a signature of the declared length that the verifying callback accepts over
the same byte range, the token produced by `sign` verifies and its claims
segment decodes back to the original claims JSON, which the external JSON
layer then deserializes into the original value. -/
lemma signVerify_roundtrip {α : Type} (alg : Bytes) (sigLen : Nat)
    (unm : Unmarshaller α) (C : α) (v0 : α) (cj sig : Bytes)
    (fnS : Bytes → Except Err Bytes) (fnV : Bytes → Bytes → Except Err Unit)
    (hh : ∀ b ∈ marshalHeader ⟨headerTypeJWT, alg⟩, b < 256)
    (hum : unmarshalHeader (marshalHeader ⟨headerTypeJWT, alg⟩)
      = .ok ⟨headerTypeJWT, alg⟩)
    (hcb : ∀ b ∈ cj, b < 256)
    (hslt : ∀ b ∈ sig, b < 256)
    (hsl : sig.length = sigLen)
    (hfnS : fnS (b64urlEncode (marshalHeader ⟨headerTypeJWT, alg⟩) ++ [46] ++
      b64urlEncode cj) = .ok sig)
    (hfnV : fnV (b64urlEncode (marshalHeader ⟨headerTypeJWT, alg⟩) ++ [46] ++
      b64urlEncode cj) sig = .ok ())
    (hunm : unm cj v0 = (.ok (), C)) :
    ∃ tok, (sign alg sigLen cj fnS).1 = .ok tok ∧
      (verifyInto unm v0 (verify alg tok fnV)).1 = (.ok (), C) := by
  refine ⟨_, by rw [sign_ok alg sigLen cj sig fnS hfnS hsl], ?_⟩
  rw [verify_tokenBytes_ok alg _ cj sig fnV hh hcb hslt
    (fun h hh' => by rw [hum] at hh'; injection hh' with e; rw [← e])
    (by rw [hum]; rfl) hfnV]
  simp [verifyInto, hunm]

/-- C4: for every claims value whose JSON serialization round-trips through
the external JSON layer, and a matching key for each binding (the same HS256
secret; an RSA sign/verify pair that accepts its own signatures; an ECDSA
sign/verify pair over P-256 that accepts its own scalars), verifying the
token produced by signing succeeds and deserializes into a value equal to
the original. -/
theorem claim_C4_roundtrip {α : Type}
    (marshalClaims : α → Bytes) (unm : Unmarshaller α) (C : α) (v0 : α)
    (hcb : ∀ b ∈ marshalClaims C, b < 256)
    (hunm : unm (marshalClaims C) v0 = (.ok (), C))
    (hmac : Bytes → Bytes → Bytes) (secret : Bytes)
    (hmacLen : ∀ d, (hmac secret d).length = 32)
    (hmacLt : ∀ d, ∀ b ∈ hmac secret d, b < 256)
    (rsaSignPKCS1v15 : Bytes → Except Err Bytes)
    (rsaVerifyPKCS1v15 : Bytes → Bytes → Bool) (hashR : Bytes → Bytes)
    (hrsa : ∀ dg, ∃ sg, rsaSignPKCS1v15 dg = .ok sg ∧ sg.length = 256 ∧
      (∀ b ∈ sg, b < 256) ∧ rsaVerifyPKCS1v15 dg sg = true)
    (ecdsaSign : Bytes → Except Err (Nat × Nat))
    (ecdsaVerify : Bytes → Nat → Nat → Bool) (hashE : Bytes → Bytes)
    (hecdsa : ∀ dg, ∃ r s, ecdsaSign dg = .ok (r, s) ∧ r < 2 ^ 256 ∧
      s < 2 ^ 256 ∧ ecdsaVerify dg r s = true) :
    (∃ tok, (SignHS256 hmac secret (marshalClaims C)).1 = .ok tok ∧
      (VerifyHS256 hmac unm secret tok v0).1 = (.ok (), C)) ∧
    (∃ tok, (SignRS256 rsaSignPKCS1v15 hashR (marshalClaims C)).1 = .ok tok ∧
      (VerifyRS256 rsaVerifyPKCS1v15 hashR unm tok v0).1 = (.ok (), C)) ∧
    (∃ tok, (SignES256 ecdsaSign hashE (marshalClaims C)).1 = .ok tok ∧
      (VerifyES256 ecdsaVerify hashE unm tok v0).1 = (.ok (), C)) := by
  refine ⟨?_, ?_, ?_⟩
  · have h := signVerify_roundtrip algHS256 32 unm C v0 (marshalClaims C)
      (hmac secret (b64urlEncode (marshalHeader ⟨headerTypeJWT, algHS256⟩) ++
        [46] ++ b64urlEncode (marshalClaims C)))
      (fun data => .ok (hmac secret data))
      (fun data sig => (hs256Check hmac secret data sig).1)
      marshalHeader_lt_HS256 unmarshalHeader_HS256 hcb
      (hmacLt _) (hmacLen _) rfl
      (by simp [hs256Check]) hunm
    simpa only [SignHS256, VerifyHS256] using h
  · obtain ⟨sg, hsg, hlen, hlt, hacc⟩ := hrsa
      (hashR (b64urlEncode (marshalHeader ⟨headerTypeJWT, algRS256⟩) ++
        [46] ++ b64urlEncode (marshalClaims C)))
    have h := signVerify_roundtrip algRS256 256 unm C v0 (marshalClaims C) sg
      (fun data => rsaSignPKCS1v15 (hashR data))
      (fun data sig => (rs256Check rsaVerifyPKCS1v15 hashR data sig).1)
      marshalHeader_lt_RS256 unmarshalHeader_RS256 hcb hlt hlen hsg
      (by show (rs256Check rsaVerifyPKCS1v15 hashR
            (b64urlEncode (marshalHeader ⟨headerTypeJWT, algRS256⟩) ++ [46] ++
              b64urlEncode (marshalClaims C)) sg).1 = .ok ()
          rw [rs256Check, if_pos hacc]) hunm
    simpa only [SignRS256, VerifyRS256] using h
  · obtain ⟨r, s, hsig, hr, hs, hacc⟩ := hecdsa
      (hashE (b64urlEncode (marshalHeader ⟨headerTypeJWT, algES256⟩) ++
        [46] ++ b64urlEncode (marshalClaims C)))
    have hhalves := es256SigEncode_halves r s hr hs
    have h := signVerify_roundtrip algES256 64 unm C v0 (marshalClaims C)
      (es256SigEncode r s)
      (fun data => match ecdsaSign (hashE data) with
        | .error e => .error e
        | .ok (r, s) => .ok (es256SigEncode r s))
      (fun data sig => (es256Check ecdsaVerify hashE data sig).1)
      marshalHeader_lt_ES256 unmarshalHeader_ES256 hcb
      (es256SigEncode_mem_lt r s) (es256SigEncode_length r s hr hs)
      (by show (match ecdsaSign (hashE (b64urlEncode
              (marshalHeader ⟨headerTypeJWT, algES256⟩) ++ [46] ++
              b64urlEncode (marshalClaims C))) with
            | Except.error e => Except.error e
            | Except.ok (r, s) => Except.ok (es256SigEncode r s))
            = Except.ok (es256SigEncode r s)
          rw [hsig])
      (by show (es256Check ecdsaVerify hashE
            (b64urlEncode (marshalHeader ⟨headerTypeJWT, algES256⟩) ++ [46] ++
              b64urlEncode (marshalClaims C)) (es256SigEncode r s)).1 = .ok ()
          rw [es256Check,
            if_neg (by rw [es256SigEncode_length r s hr hs]; omega)]
          simp only [hhalves.1, hhalves.2]
          rw [if_pos hacc]) hunm
    simpa only [SignES256, VerifyES256] using h

set_option maxRecDepth 4096 in
/-- C4 witness: the round trip at a concrete claims document and concrete
(model) primitives for each binding. -/
theorem claim_C4_witness :
    ((fun (bs : Bytes) (_ : Bytes) => ((Except.ok () : Except Err Unit), bs))
        [123, 125] []
      = ((Except.ok () : Except Err Unit), ([123, 125] : Bytes))) ∧
    (∃ tok, (SignHS256 (fun _ _ => List.replicate 32 7) [] [123, 125]).1
        = .ok tok ∧
      (VerifyHS256 (fun _ _ => List.replicate 32 7)
        (fun bs _ => (Except.ok (), bs)) [] tok []).1
        = (.ok (), [123, 125])) ∧
    (∃ tok, (SignRS256 (fun _ => .ok (List.replicate 256 1)) (fun d => d)
        [123, 125]).1 = .ok tok ∧
      (VerifyRS256 (fun _ sg => sg == List.replicate 256 1) (fun d => d)
        (fun bs _ => (Except.ok (), bs)) tok []).1 = (.ok (), [123, 125])) ∧
    (∃ tok, (SignES256 (fun _ => .ok (1, 2)) (fun d => d) [123, 125]).1
        = .ok tok ∧
      (VerifyES256 (fun _ r s => r == 1 && s == 2) (fun d => d)
        (fun bs _ => (Except.ok (), bs)) tok []).1 = (.ok (), [123, 125])) := by
  have h := claim_C4_roundtrip (fun x => x) (fun bs _ => (Except.ok (), bs))
    [123, 125] [] (by decide) rfl
    (fun _ _ => List.replicate 32 7) []
    (fun d => rfl) (fun d b hb => by simp at hb; omega)
    (fun _ => .ok (List.replicate 256 1)) (fun _ sg => sg == List.replicate 256 1)
    (fun d => d)
    (fun dg => ⟨List.replicate 256 1, rfl, rfl,
      fun b hb => by simp at hb; omega, rfl⟩)
    (fun _ => .ok (1, 2)) (fun _ r s => r == 1 && s == 2) (fun d => d)
    (fun dg => ⟨1, 2, rfl, by norm_num, by norm_num, rfl⟩)
  exact ⟨rfl, h.1, h.2.1, h.2.2⟩

end UcarionJwt
